import Mathlib

/-!
Verification of the CDN garbage collector (`engine/cdn/cdn_gc.go`).

The Go source is shallowly embedded: database state becomes explicit record
types, SQL-backed queries become pure functions over those records, the
goroutine loops become functions over event traces, and concurrency windows
(a query executed outside a transaction) become an explicit `interfere`
parameter running between the two atomic steps of the Go code.
-/

namespace CdnGC

/-! ## Storage units and ItemUnit rows (for `cleanBuffer`) -/

/-- A registered storage unit. `isCDS` records whether the unit is the legacy
CDS backend, which the Go code detects with the type assertion `sto.(*cds.CDS)`. -/
structure Storage where
  id : String
  isCDS : Bool
  deriving DecidableEq

/-- The running storage units of the service: the permanent storages
(`s.Units.Storages`) and the buffer unit (`s.Units.Buffer`). -/
structure Units where
  storages : List Storage
  buffer : Storage
  deriving DecidableEq

/-- One ItemUnit row: item `itemID` has a copy of its content in unit `unitID`. -/
structure ItemUnitRow where
  itemID : Nat
  unitID : String
  deriving DecidableEq

/-- The ItemUnit table. -/
structure UnitsDB where
  itemUnits : List ItemUnitRow
  deriving DecidableEq

/-- Whether the table records a copy of `itemID` in unit `unitID`. -/
def inUnit (db : UnitsDB) (itemID : Nat) (unitID : String) : Bool :=
  db.itemUnits.any (fun r => r.itemID == itemID && r.unitID == unitID)

/-- The first CDS (legacy) backend among the storages, as in the Go loop over
`s.Units.Storages` that breaks at the first `*cds.CDS`; `""` when none is
found, matching the Go zero-value sentinel `cdsBackendID == ""`. -/
def findCDSBackendID (storages : List Storage) : String :=
  match storages.find? (fun st => st.isCDS) with
  | some st => st.id
  | none => ""

/-- The replication condition of §4.2: the item is present in the Buffer unit
and in every registered permanent unit other than the legacy one. -/
def fullyReplicatedExceptCDS (db : UnitsDB) (units : Units) (cdsID : String) (i : Nat) : Bool :=
  inUnit db i units.buffer.id &&
    units.storages.all (fun u => u.id == cdsID || inUnit db i u.id)

/-- Modelled from the spec: `storage.LoadAllItemsIDInBufferAndAllUnitsExceptCDS`
is not under src/; §4.2 `listBufferedAndReplicatedExceptLegacy` returns the ids
present in the Buffer unit and in every registered Permanent unit other than
the legacy one. -/
def LoadAllItemsIDInBufferAndAllUnitsExceptCDS (db : UnitsDB) (units : Units)
    (cdsID : String) : List Nat :=
  (db.itemUnits.map (fun r => r.itemID)).filter
    (fun i => fullyReplicatedExceptCDS db units cdsID i)

/-- Modelled from the spec: `storage.DeleteItemsUnit` is not under src/; §4.2
`deleteFromUnit(unitID, itemIDs)` removes the ItemUnit rows for the given unit
and items, scoped to the caller's transaction. -/
def DeleteItemsUnit (db : UnitsDB) (unitID : String) (itemIDs : List Nat) : UnitsDB :=
  ⟨db.itemUnits.filter (fun r => !(r.unitID == unitID && itemIDs.contains r.itemID))⟩

/-- `cleanBuffer` with its concurrency window made explicit. The Go code runs
the replication query on `s.mustDBWithCtx(ctx)` and only afterwards opens the
transaction that deletes the buffer rows, so concurrent writes (`interfere`)
can land between the query and the delete; the delete itself is atomic. -/
def cleanBufferI (units : Units) (interfere : UnitsDB → UnitsDB) (db : UnitsDB) : UnitsDB :=
  let cdsBackendID := findCDSBackendID units.storages
  if cdsBackendID = "" then db
  else
    let itemIDs := LoadAllItemsIDInBufferAndAllUnitsExceptCDS db units cdsBackendID
    let db1 := interfere db
    DeleteItemsUnit db1 units.buffer.id itemIDs

/-- `cleanBuffer` run without concurrent interference. -/
def cleanBuffer (units : Units) (db : UnitsDB) : UnitsDB :=
  cleanBufferI units id db

/-- The eviction the spec describes, for comparison with `cleanBufferI`: the
replication state is re-queried inside the deletion transaction, i.e. after
any concurrent writes, rather than cached from before it. -/
def cleanBufferSpecDescribed (units : Units) (interfere : UnitsDB → UnitsDB)
    (db : UnitsDB) : UnitsDB :=
  let cdsBackendID := findCDSBackendID units.storages
  if cdsBackendID = "" then db
  else
    let db1 := interfere db
    let itemIDs := LoadAllItemsIDInBufferAndAllUnitsExceptCDS db1 units cdsBackendID
    DeleteItemsUnit db1 units.buffer.id itemIDs

/-! Concrete instances used to separate the two. -/

def cexUnitsWithCDS : Units :=
  ⟨[⟨"cds", true⟩, ⟨"p1", false⟩], ⟨"buf", false⟩⟩

def cexDBWithCDS : UnitsDB :=
  ⟨[⟨1, "buf"⟩, ⟨1, "p1"⟩]⟩

/-- Concurrent activity that removes item 1's replicated copy in `p1` between
the query and the eviction transaction. -/
def cexInterfere (db : UnitsDB) : UnitsDB :=
  ⟨db.itemUnits.filter (fun r => !(r.itemID == 1 && r.unitID == "p1"))⟩

def cexUnitsNoCDS : Units :=
  ⟨[⟨"p1", false⟩], ⟨"buf", false⟩⟩

end CdnGC

namespace CdnGC

/-- C1, counterexample: in `cleanBuffer` the replication query runs before the
deletion transaction begins, so with a concurrent write between them item 1's
buffer copy is removed although, in the state the transaction actually sees,
item 1 is no longer fully replicated. -/
theorem cleanBuffer_stale_read_counterexample :
    inUnit (cleanBufferI cexUnitsWithCDS cexInterfere cexDBWithCDS) 1 "buf" = false ∧
    fullyReplicatedExceptCDS (cexInterfere cexDBWithCDS) cexUnitsWithCDS "cds" 1 = false ∧
    inUnit (cexInterfere cexDBWithCDS) 1 "buf" = true ∧
    cleanBufferI cexUnitsWithCDS cexInterfere cexDBWithCDS ≠
      cleanBufferSpecDescribed cexUnitsWithCDS cexInterfere cexDBWithCDS := by
  decide

/-- C1, amended: the replication query of `cleanBuffer` is executed before the
eviction transaction begins, so eviction is justified by the pre-transaction
snapshot only: an item's buffer copy is removed only if it was fully
replicated (except the legacy unit) in the state at query time, which need not
still hold inside the transaction. -/
theorem cleanBuffer_evicts_only_snapshot_replicated (units : Units)
    (interfere : UnitsDB → UnitsDB) (db : UnitsDB) (i : Nat)
    (hcds : findCDSBackendID units.storages ≠ "")
    (hbefore : inUnit (interfere db) i units.buffer.id = true)
    (hafter : inUnit (cleanBufferI units interfere db) i units.buffer.id = false) :
    fullyReplicatedExceptCDS db units (findCDSBackendID units.storages) i = true := by
  unfold cleanBufferI at hafter
  rw [if_neg hcds] at hafter
  -- extract a concrete buffer row of `i` present in the transaction's state
  unfold inUnit at hbefore
  rw [List.any_eq_true] at hbefore
  obtain ⟨r, hrmem, hr⟩ := hbefore
  rw [Bool.and_eq_true, beq_iff_eq, beq_iff_eq] at hr
  -- if `i` were not among the queried ids, the row would survive the delete
  by_cases hin :
      i ∈ LoadAllItemsIDInBufferAndAllUnitsExceptCDS db units (findCDSBackendID units.storages)
  · -- membership in the query result means the snapshot predicate held
    unfold LoadAllItemsIDInBufferAndAllUnitsExceptCDS at hin
    exact (List.mem_filter.mp hin).2
  · exfalso
    unfold inUnit at hafter
    rw [Bool.eq_false_iff, ne_eq, List.any_eq_true] at hafter
    apply hafter
    refine ⟨r, ?_, by rw [Bool.and_eq_true, beq_iff_eq, beq_iff_eq]; exact hr⟩
    unfold DeleteItemsUnit
    simp only [List.mem_filter]
    refine ⟨hrmem, ?_⟩
    simp only [Bool.not_eq_eq_eq_not, Bool.not_true, Bool.and_eq_false_iff]
    right
    rw [List.contains_eq_any_beq, Bool.eq_false_iff, ne_eq, List.any_eq_true]
    intro ⟨x, hx, hxi⟩
    rw [beq_iff_eq] at hxi
    have hix : i = x := hr.1.symm.trans hxi
    exact hin (hix ▸ hx)

/-- C1 witness: the amended theorem applied at a concrete run in which a fully
replicated item is evicted. -/
theorem cleanBuffer_evicts_only_snapshot_replicated_witness :
    fullyReplicatedExceptCDS cexDBWithCDS cexUnitsWithCDS
      (findCDSBackendID cexUnitsWithCDS.storages) 1 = true :=
  cleanBuffer_evicts_only_snapshot_replicated cexUnitsWithCDS id cexDBWithCDS 1
    (by decide) (by decide) (by decide)

/-- C2, counterexample: with one permanent unit, no legacy unit registered and
item 1 present in the buffer and in every permanent unit, `cleanBuffer` leaves
item 1's buffer copy in place — eviction does not proceed, it is a no-op even
though permanent units are registered. -/
theorem cleanBuffer_noCDS_counterexample :
    findCDSBackendID cexUnitsNoCDS.storages = "" ∧
    inUnit cexDBWithCDS 1 cexUnitsNoCDS.buffer.id = true ∧
    cexUnitsNoCDS.storages.all (fun u => inUnit cexDBWithCDS 1 u.id) = true ∧
    inUnit (cleanBuffer cexUnitsNoCDS cexDBWithCDS) 1 "buf" = true ∧
    cleanBuffer cexUnitsNoCDS cexDBWithCDS = cexDBWithCDS := by
  decide

/-- C2, amended: when no legacy CDS permanent unit is registered, `cleanBuffer`
returns immediately without evicting anything — the whole pass is a no-op, and
every buffer copy survives, even for items present in all permanent units. -/
theorem cleanBuffer_noop_without_legacy_unit (units : Units) (db : UnitsDB)
    (hcds : findCDSBackendID units.storages = "") :
    cleanBuffer units db = db ∧
    ∀ i : Nat, inUnit (cleanBuffer units db) i units.buffer.id = inUnit db i units.buffer.id := by
  constructor
  · unfold cleanBuffer cleanBufferI
    rw [if_pos hcds]
  · intro i
    unfold cleanBuffer cleanBufferI
    rw [if_pos hcds]

/-- C2 witness: the amended theorem applied at the concrete no-legacy setup. -/
theorem cleanBuffer_noop_without_legacy_unit_witness :
    cleanBuffer cexUnitsNoCDS cexDBWithCDS = cexDBWithCDS ∧
    ∀ i : Nat, inUnit (cleanBuffer cexUnitsNoCDS cexDBWithCDS) i cexUnitsNoCDS.buffer.id =
      inUnit cexDBWithCDS i cexUnitsNoCDS.buffer.id :=
  cleanBuffer_noop_without_legacy_unit cexUnitsNoCDS cexDBWithCDS (by decide)

end CdnGC

namespace CdnGC

/-! ## Hard-delete sweep (`cleanItemToDelete`) -/

/-- The Item Registry state the sweep sees: the ids currently flagged
`toDelete`. -/
structure IndexDB where
  toDelete : List Nat
  deriving DecidableEq

/-- Modelled from the spec: `index.LoadItemIDsToDelete` is not under src/; §4.1
`loadIDsToDelete(limit)` returns up to `limit` item ids with `toDelete = true`,
deterministically paginated. -/
def LoadItemIDsToDelete (db : IndexDB) (limit : Nat) : List Nat :=
  db.toDelete.take limit

/-- Modelled from the spec: `index.DeleteItemByIDs` is not under src/; §4.1
`deleteByIDs(ids)` hard-deletes the item rows for those ids. -/
def DeleteItemByIDs (db : IndexDB) (ids : List Nat) : IndexDB :=
  ⟨db.toDelete.filter (fun i => !(ids.contains i))⟩

theorem length_filter_lt {α} (p : α → Bool) (l : List α) (a : α) (h : a ∈ l)
    (hp : p a = false) : (l.filter p).length < l.length := by
  induction l with
  | nil => cases h
  | cons b t ih =>
    rcases List.mem_cons.mp h with rfl | hat
    · rw [List.filter_cons, hp]
      simp only [List.length_cons]
      exact Nat.lt_succ_of_le (List.length_filter_le p t)
    · rw [List.filter_cons]
      cases hpb : p b
      · simp only [List.length_cons]
        exact Nat.lt_succ_of_le (List.length_filter_le p t)
      · simp only [List.length_cons]
        exact Nat.succ_lt_succ (ih hat)

/-- Deleting a non-empty loaded batch strictly shrinks the `toDelete` backlog. -/
theorem delete_loaded_lt (db : IndexDB) (h : LoadItemIDsToDelete db 100 ≠ []) :
    (DeleteItemByIDs db (LoadItemIDsToDelete db 100)).toDelete.length < db.toDelete.length := by
  obtain ⟨a, ha⟩ := List.exists_mem_of_ne_nil _ h
  have hmem : a ∈ db.toDelete := List.mem_of_mem_take ha
  apply length_filter_lt _ _ a hmem
  simp only [Bool.not_eq_false']
  exact List.elem_eq_true_of_mem ha

/-- `cleanItemToDelete`: repeatedly load up to 100 flagged ids and hard-delete
them, until a load returns zero ids; a failing load or delete (modelled by the
oracles, since `index.LoadItemIDsToDelete`/`index.DeleteItemByIDs` hit the
store) returns the error to the caller with the backlog as it stood. -/
def cleanItemToDelete (failLoad failDelete : IndexDB → Bool) (db : IndexDB) :
    Except IndexDB IndexDB :=
  if failLoad db then .error db
  else
    let ids := LoadItemIDsToDelete db 100
    if ids = [] then .ok db
    else if failDelete db then .error db
    else cleanItemToDelete failLoad failDelete (DeleteItemByIDs db ids)
termination_by db.toDelete.length
decreasing_by
  exact delete_loaded_lt db (by assumption)

theorem toDelete_nil (db : IndexDB) (h : db.toDelete = []) : db = ⟨[]⟩ := by
  obtain ⟨l⟩ := db
  simp_all

theorem cleanItemToDelete_ok_empty (db0 : IndexDB) :
    cleanItemToDelete (fun _ => false) (fun _ => false) db0 = .ok ⟨[]⟩ := by
  suffices H : ∀ (n : Nat) (db : IndexDB), db.toDelete.length ≤ n →
      cleanItemToDelete (fun _ => false) (fun _ => false) db = .ok ⟨[]⟩ from
    H _ db0 le_rfl
  intro n
  induction n with
  | zero =>
    intro db hle
    have hnil : db.toDelete = [] := List.eq_nil_of_length_eq_zero (Nat.le_zero.mp hle)
    rw [toDelete_nil db hnil]
    unfold cleanItemToDelete
    simp [LoadItemIDsToDelete]
  | succ m ih =>
    intro db hle
    unfold cleanItemToDelete
    rw [if_neg Bool.false_ne_true]
    by_cases hids : LoadItemIDsToDelete db 100 = []
    · rw [if_pos hids]
      have hnil : db.toDelete = [] := by
        rcases List.take_eq_nil_iff.mp hids with h' | h'
        · cases h'
        · exact h'
      rw [toDelete_nil db hnil]
    · rw [if_neg hids]
      exact ih _ (Nat.lt_succ_iff.mp (Nat.lt_of_lt_of_le (delete_loaded_lt db hids) hle))

theorem cleanItemToDelete_error_subset (fl fd : IndexDB → Bool) (db0 db' : IndexDB)
    (h0 : cleanItemToDelete fl fd db0 = .error db') : db'.toDelete ⊆ db0.toDelete := by
  suffices H : ∀ (n : Nat) (db : IndexDB), db.toDelete.length ≤ n →
      cleanItemToDelete fl fd db = .error db' → db'.toDelete ⊆ db.toDelete from
    H _ db0 le_rfl h0
  intro n
  induction n with
  | zero =>
    intro db hle h
    have hnil : db.toDelete = [] := List.eq_nil_of_length_eq_zero (Nat.le_zero.mp hle)
    unfold cleanItemToDelete at h
    by_cases hfl : fl db
    · rw [if_pos hfl] at h
      cases h
      exact fun a ha => ha
    · rw [if_neg hfl] at h
      have hids : LoadItemIDsToDelete db 100 = [] := by
        unfold LoadItemIDsToDelete
        rw [hnil]
        rfl
      rw [if_pos hids] at h
      cases h
  | succ m ih =>
    intro db hle h
    unfold cleanItemToDelete at h
    by_cases hfl : fl db
    · rw [if_pos hfl] at h
      cases h
      exact fun a ha => ha
    · rw [if_neg hfl] at h
      by_cases hids : LoadItemIDsToDelete db 100 = []
      · rw [if_pos hids] at h
        cases h
      · rw [if_neg hids] at h
        by_cases hfd : fd db
        · rw [if_pos hfd] at h
          cases h
          exact fun a ha => ha
        · rw [if_neg hfd] at h
          have hsub := ih _
            (Nat.lt_succ_iff.mp (Nat.lt_of_lt_of_le (delete_loaded_lt db hids) hle)) h
          exact fun a ha => List.mem_of_mem_filter (hsub ha)

/-- C5: the hard-delete sweep drains any finite `toDelete` backlog to the empty
backlog, loading batches of at most `limit` ids at a time; a failing load or
delete surfaces as an error whose payload is a sub-backlog of the original
(left for the next tick); and an id already deleted within the sweep is never
re-returned by a later load. -/
theorem cleanItemToDelete_drains_backlog (db : IndexDB) :
    cleanItemToDelete (fun _ => false) (fun _ => false) db = Except.ok ⟨[]⟩ ∧
    (∀ limit : Nat, (LoadItemIDsToDelete db limit).length ≤ limit) ∧
    (∀ failLoad failDelete : IndexDB → Bool, ∀ db' : IndexDB,
      cleanItemToDelete failLoad failDelete db = Except.error db' →
      db'.toDelete ⊆ db.toDelete) ∧
    (∀ (ids : List Nat) (i limit : Nat), i ∈ ids →
      i ∉ LoadItemIDsToDelete (DeleteItemByIDs db ids) limit) := by
  refine ⟨cleanItemToDelete_ok_empty db, ?_, ?_, ?_⟩
  · intro limit
    exact List.length_take_le limit db.toDelete
  · intro fl fd db' h
    exact cleanItemToDelete_error_subset fl fd db db' h
  · intro ids i limit hi hmem
    have hin : i ∈ (DeleteItemByIDs db ids).toDelete := List.mem_of_mem_take hmem
    unfold DeleteItemByIDs at hin
    have hkeep := (List.mem_filter.mp hin).2
    simp only [Bool.not_eq_eq_eq_not, Bool.not_true] at hkeep
    rw [List.contains_eq_any_beq, Bool.eq_false_iff, ne_eq, List.any_eq_true] at hkeep
    exact hkeep ⟨i, hi, beq_self_eq_true i⟩

/-- C5 witness: the sweep drains a concrete backlog, an induced failure returns
a sub-backlog, and a deleted id is not re-returned. -/
theorem cleanItemToDelete_drains_backlog_witness :
    cleanItemToDelete (fun _ => false) (fun _ => false) ⟨[1, 2]⟩ = Except.ok ⟨[]⟩ ∧
    (IndexDB.mk [1, 2]).toDelete ⊆ (IndexDB.mk [1, 2]).toDelete ∧
    1 ∉ LoadItemIDsToDelete (DeleteItemByIDs ⟨[1, 2]⟩ [1]) 100 :=
  ⟨(cleanItemToDelete_drains_backlog ⟨[1, 2]⟩).1,
   (cleanItemToDelete_drains_backlog ⟨[1, 2]⟩).2.2.1 (fun _ => true) (fun _ => false)
     ⟨[1, 2]⟩ (by unfold cleanItemToDelete; simp),
   (cleanItemToDelete_drains_backlog ⟨[1, 2]⟩).2.2.2 [1] 1 100 (by simp)⟩

/-! ## Termination structure of the sweep (C10) -/

/-- The sweep's inner loop with the store abstracted: `load` and `del` stand
for `index.LoadItemIDsToDelete`/`index.DeleteItemByIDs`, and the fuel makes
the Go `for` loop's iteration count observable — `none` means the loop has not
returned within `fuel` iterations. -/
def cleanItemToDeleteLoop (load : IndexDB → List Nat)
    (del : IndexDB → List Nat → IndexDB) : Nat → IndexDB → Option IndexDB
  | 0, _ => none
  | n + 1, db =>
    let ids := load db
    if ids = [] then some db else cleanItemToDeleteLoop load del n (del db ids)

/-- C10: the sweep's loop terminates only because deletion shrinks what later
loads return: with the actual load/delete semantics the loop returns once the
fuel exceeds the backlog size, but if every load keeps returning a non-empty
id list (deletion silently failing to clear the flag) the loop never returns,
for any amount of fuel. -/
theorem cleanItemToDeleteLoop_termination :
    (∀ (load : IndexDB → List Nat) (del : IndexDB → List Nat → IndexDB),
      (∀ d : IndexDB, load d ≠ []) →
      ∀ (n : Nat) (db : IndexDB), cleanItemToDeleteLoop load del n db = none) ∧
    (∀ (n : Nat) (db : IndexDB), db.toDelete.length < n →
      cleanItemToDeleteLoop (fun d => LoadItemIDsToDelete d 100) DeleteItemByIDs n db =
        some ⟨[]⟩) := by
  constructor
  · intro load del hload n
    induction n with
    | zero => intro db; rfl
    | succ m ih =>
      intro db
      unfold cleanItemToDeleteLoop
      rw [if_neg (hload db)]
      exact ih _
  · intro n
    induction n with
    | zero => intro db h; cases h
    | succ m ih =>
      intro db h
      unfold cleanItemToDeleteLoop
      by_cases hids : LoadItemIDsToDelete db 100 = []
      · rw [if_pos hids]
        have hnil : db.toDelete = [] := by
          rcases List.take_eq_nil_iff.mp hids with h' | h'
          · cases h'
          · exact h'
        rw [toDelete_nil db hnil]
      · rw [if_neg hids]
        exact ih _ (Nat.lt_of_lt_of_le (delete_loaded_lt db hids) (Nat.lt_succ_iff.mp h))

/-- C10 witness: a load that always returns `[1]` starves the loop for any
fuel, while the real semantics return within backlog-many iterations. -/
theorem cleanItemToDeleteLoop_termination_witness :
    cleanItemToDeleteLoop (fun _ => [1]) (fun d _ => d) 5 ⟨[1]⟩ = none ∧
    cleanItemToDeleteLoop (fun d => LoadItemIDsToDelete d 100) DeleteItemByIDs 2 ⟨[1]⟩ =
      some ⟨[]⟩ :=
  ⟨cleanItemToDeleteLoop_termination.1 (fun _ => [1]) (fun d _ => d) (fun d => by simp) 5 ⟨[1]⟩,
   cleanItemToDeleteLoop_termination.2 2 ⟨[1]⟩ (by decide)⟩

end CdnGC

namespace CdnGC

/-! ## Stale-incoming completion (`cleanWaitingItem`) -/

/-- Item status, as in `index`: `Incoming` until the producer signals
end-of-stream or the GC force-completes the item. -/
inductive ItemStatus where
  | Incoming
  | Completed
  deriving DecidableEq

/-- `index.StatusItemIncoming`, the status `cleanWaitingItem` queries for. -/
def StatusItemIncoming : ItemStatus := ItemStatus.Incoming

/-- The stale-incoming age threshold of the source: `ItemLogGC = 24 * 3600`. -/
def ItemLogGC : Nat := 24 * 3600

/-- An ItemUnit record as seen by the stale-incoming query: the item it refers
to carries a status and a last-write age in seconds. -/
structure ItemUnit where
  itemID : Nat
  unitID : String
  itemStatus : ItemStatus
  ageSeconds : Nat
  deriving DecidableEq

/-- The ItemUnit table joined with item status, as the stale query sees it. -/
structure WaitingDB where
  itemUnits : List ItemUnit
  deriving DecidableEq

/-- Modelled from the spec: `storage.LoadOldItemUnitByItemStatusAndDuration` is
not under src/; §4.2 `loadStaleIncoming(status, maxAgeSeconds)` returns the
ItemUnit records whose item is in the given status and whose last-write age
exceeds the threshold. -/
def LoadOldItemUnitByItemStatusAndDuration (db : WaitingDB) (status : ItemStatus)
    (maxAgeSeconds : Nat) : List ItemUnit :=
  db.itemUnits.filter
    (fun iu => iu.itemStatus == status && decide (maxAgeSeconds < iu.ageSeconds))

/-- What a `cleanWaitingItem` run has durably committed: the items completed in
their own committed transactions, and the `metricsItemCompletedByGC` counter. -/
structure GCRunState where
  completed : List ItemUnit
  metricItemCompletedByGC : Nat
  deriving DecidableEq

/-- The per-item loop of `cleanWaitingItem`: for each loaded ItemUnit, begin a
transaction, run `completeItem` (its success abstracted by `completeOk`, since
`completeItem` lives outside this file of the repository) and commit, counting
the metric; on a failure roll back that item and return the error, leaving the
previously committed state in place. -/
def cleanWaitingItemLoop (completeOk : ItemUnit → Bool) :
    List ItemUnit → GCRunState → Except GCRunState GCRunState
  | [], st => .ok st
  | iu :: rest, st =>
    if completeOk iu then
      cleanWaitingItemLoop completeOk rest
        ⟨st.completed ++ [iu], st.metricItemCompletedByGC + 1⟩
    else .error st

/-- `cleanWaitingItem`: load the stale Incoming ItemUnits and force-complete
them one transaction per item. -/
def cleanWaitingItem (completeOk : ItemUnit → Bool) (db : WaitingDB) :
    Except GCRunState GCRunState :=
  cleanWaitingItemLoop completeOk
    (LoadOldItemUnitByItemStatusAndDuration db StatusItemIncoming ItemLogGC) ⟨[], 0⟩

/-- The committed completions of a run, error or not. -/
def runCompleted : Except GCRunState GCRunState → List ItemUnit
  | .ok st => st.completed
  | .error st => st.completed

theorem cleanWaitingItemLoop_all_ok (completeOk : ItemUnit → Bool) (l : List ItemUnit)
    (h : ∀ iu ∈ l, completeOk iu = true) : ∀ st : GCRunState,
    cleanWaitingItemLoop completeOk l st =
      .ok ⟨st.completed ++ l, st.metricItemCompletedByGC + l.length⟩ := by
  induction l with
  | nil => intro st; simp [cleanWaitingItemLoop]
  | cons iu rest ih =>
    intro st
    unfold cleanWaitingItemLoop
    rw [if_pos (h iu (List.mem_cons_self iu rest))]
    rw [ih (fun x hx => h x (List.mem_cons_of_mem iu hx))]
    simp only [Except.ok.injEq, GCRunState.mk.injEq]
    constructor
    · simp
    · simp only [List.length_cons]
      omega

theorem cleanWaitingItemLoop_error (completeOk : ItemUnit → Bool) (l : List ItemUnit) :
    ∀ (st st' : GCRunState), cleanWaitingItemLoop completeOk l st = .error st' →
      st'.completed = st.completed ++ l.takeWhile completeOk ∧
      st'.metricItemCompletedByGC =
        st.metricItemCompletedByGC + (l.takeWhile completeOk).length ∧
      ∃ bad ∈ l, completeOk bad = false := by
  induction l with
  | nil =>
    intro st st' h
    cases h
  | cons iu rest ih =>
    intro st st' h
    unfold cleanWaitingItemLoop at h
    by_cases hok : completeOk iu = true
    · rw [if_pos hok] at h
      obtain ⟨h1, h2, bad, hbad, hbadok⟩ := ih _ _ h
      refine ⟨?_, ?_, bad, List.mem_cons_of_mem iu hbad, hbadok⟩
      · rw [h1]
        simp [List.takeWhile_cons, hok]
      · rw [h2]
        simp only [List.takeWhile_cons, hok, if_true, List.length_cons]
        omega
    · rw [if_neg hok] at h
      cases h
      refine ⟨?_, ?_, iu, List.mem_cons_self iu rest, Bool.eq_false_iff.mpr hok⟩
      · simp [List.takeWhile_cons, hok]
      · simp [List.takeWhile_cons, hok]

theorem cleanWaitingItemLoop_completed_from (completeOk : ItemUnit → Bool)
    (l : List ItemUnit) : ∀ (st : GCRunState) (iu : ItemUnit),
      iu ∈ runCompleted (cleanWaitingItemLoop completeOk l st) →
      iu ∈ st.completed ∨ iu ∈ l := by
  induction l with
  | nil =>
    intro st iu h
    exact Or.inl h
  | cons hd rest ih =>
    intro st iu h
    unfold cleanWaitingItemLoop at h
    by_cases hok : completeOk hd = true
    · rw [if_pos hok] at h
      rcases ih _ iu h with hin | hin
      · rcases List.mem_append.mp hin with hin' | hin'
        · exact Or.inl hin'
        · exact Or.inr (List.mem_cons.mpr (Or.inl (List.mem_singleton.mp hin')))
      · exact Or.inr (List.mem_cons_of_mem hd hin)
    · rw [if_neg hok] at h
      exact Or.inl h

/-! Concrete records for the stale-incoming claims. -/

def cexStale1 : ItemUnit := ⟨1, "buf", ItemStatus.Incoming, 90000⟩
def cexStale2 : ItemUnit := ⟨2, "buf", ItemStatus.Incoming, 90000⟩
def cexFresh : ItemUnit := ⟨3, "buf", ItemStatus.Incoming, 100⟩
def cexDone : ItemUnit := ⟨4, "buf", ItemStatus.Completed, 90000⟩

def cexWaitingDB : WaitingDB := ⟨[cexStale1, cexStale2, cexFresh, cexDone]⟩

/-- A completion that fails exactly on item 1. -/
def cexCompleteOk (iu : ItemUnit) : Bool := iu.itemID != 1

/-- C3, counterexample: when completing the first stale item fails,
`cleanWaitingItem` returns that error at once, and the second stale item
loaded in the same tick is not processed — a single failure aborts the
remaining items of the tick, not only the failing item. -/
theorem cleanWaitingItem_sibling_abort_counterexample :
    cexStale2 ∈ LoadOldItemUnitByItemStatusAndDuration cexWaitingDB StatusItemIncoming
      ItemLogGC ∧
    cleanWaitingItem cexCompleteOk cexWaitingDB = .error ⟨[], 0⟩ ∧
    cexStale2 ∉ runCompleted (cleanWaitingItem cexCompleteOk cexWaitingDB) := by
  refine ⟨by decide, by rfl, by decide⟩

/-- C3, amended: each stale item is force-completed in its own committed
transaction, so when all completions succeed every loaded item is completed
and the metric counts them; a failure, however, ends the tick at that item:
exactly the items before the first failure stay committed, and the failing
item (and any item after it) is left for the next tick. -/
theorem cleanWaitingItem_per_item_commit (completeOk : ItemUnit → Bool) (db : WaitingDB) :
    ((∀ iu ∈ LoadOldItemUnitByItemStatusAndDuration db StatusItemIncoming ItemLogGC,
        completeOk iu = true) →
      cleanWaitingItem completeOk db =
        .ok ⟨LoadOldItemUnitByItemStatusAndDuration db StatusItemIncoming ItemLogGC,
             (LoadOldItemUnitByItemStatusAndDuration db StatusItemIncoming
                ItemLogGC).length⟩) ∧
    (∀ st : GCRunState, cleanWaitingItem completeOk db = .error st →
      st.completed =
        (LoadOldItemUnitByItemStatusAndDuration db StatusItemIncoming
          ItemLogGC).takeWhile completeOk ∧
      st.metricItemCompletedByGC = st.completed.length ∧
      (∀ bad, completeOk bad = false → bad ∉ st.completed)) := by
  constructor
  · intro h
    unfold cleanWaitingItem
    rw [cleanWaitingItemLoop_all_ok completeOk _ h ⟨[], 0⟩]
    simp
  · intro st h
    obtain ⟨h1, h2, _⟩ := cleanWaitingItemLoop_error completeOk _ _ _ h
    simp only [List.nil_append] at h1 h2
    refine ⟨h1, by rw [h2, h1]; omega, ?_⟩
    intro bad hbadok hmem
    rw [h1] at hmem
    have := List.mem_takeWhile_imp hmem
    rw [hbadok] at this
    cases this

/-- C3 witness: an all-success run completes both stale items; a run failing
on item 1 commits exactly the (empty) prefix before the failure. -/
theorem cleanWaitingItem_per_item_commit_witness :
    cleanWaitingItem (fun _ => true) cexWaitingDB =
      .ok ⟨LoadOldItemUnitByItemStatusAndDuration cexWaitingDB StatusItemIncoming ItemLogGC,
           (LoadOldItemUnitByItemStatusAndDuration cexWaitingDB StatusItemIncoming
              ItemLogGC).length⟩ ∧
    (GCRunState.mk [] 0).completed =
      (LoadOldItemUnitByItemStatusAndDuration cexWaitingDB StatusItemIncoming
        ItemLogGC).takeWhile cexCompleteOk :=
  ⟨(cleanWaitingItem_per_item_commit (fun _ => true) cexWaitingDB).1 (fun _ _ => rfl),
   ((cleanWaitingItem_per_item_commit cexCompleteOk cexWaitingDB).2 ⟨[], 0⟩ (by rfl)).1⟩

/-- C6: the stale-incoming threshold is 24 hours (86400 seconds), the query
selects exactly the ItemUnits whose item status is `Incoming` and whose age
exceeds it, and the run only ever force-completes such items — `Completed`
items and younger `Incoming` items are never touched. -/
theorem cleanWaitingItem_selects_stale_incoming (db : WaitingDB) (iu : ItemUnit) :
    ItemLogGC = 24 * 3600 ∧
    (iu ∈ LoadOldItemUnitByItemStatusAndDuration db StatusItemIncoming ItemLogGC ↔
      iu ∈ db.itemUnits ∧ iu.itemStatus = ItemStatus.Incoming ∧ 86400 < iu.ageSeconds) ∧
    (∀ completeOk : ItemUnit → Bool,
      iu ∈ runCompleted (cleanWaitingItem completeOk db) →
        iu.itemStatus = ItemStatus.Incoming ∧ 86400 < iu.ageSeconds) := by
  have hmem : iu ∈ LoadOldItemUnitByItemStatusAndDuration db StatusItemIncoming ItemLogGC ↔
      iu ∈ db.itemUnits ∧ iu.itemStatus = ItemStatus.Incoming ∧ 86400 < iu.ageSeconds := by
    unfold LoadOldItemUnitByItemStatusAndDuration
    rw [List.mem_filter, Bool.and_eq_true, beq_iff_eq, decide_eq_true_iff]
    show _ ∧ _ ∧ ItemLogGC < _ ↔ _
    have hval : ItemLogGC = 86400 := rfl
    rw [hval, StatusItemIncoming]
  refine ⟨rfl, hmem, ?_⟩
  intro completeOk h
  rcases cleanWaitingItemLoop_completed_from completeOk _ _ iu h with hin | hin
  · cases hin
  · exact (hmem.mp hin).2

/-- C6 witness: a 25-hour-old `Incoming` item completed by an all-success run
is indeed stale `Incoming`. -/
theorem cleanWaitingItem_selects_stale_incoming_witness :
    cexStale1.itemStatus = ItemStatus.Incoming ∧ 86400 < cexStale1.ageSeconds :=
  (cleanWaitingItem_selects_stale_incoming cexWaitingDB cexStale1).2.2
    (fun _ => true) (by decide)

end CdnGC

namespace CdnGC

/-! ## The GC goroutine loops (`itemPurge`, `itemsGC`) -/

/-- The three GC operations the loops invoke. -/
inductive GCOp where
  | cleanItemToDeleteOp
  | cleanBufferOp
  | cleanWaitingItemOp
  deriving DecidableEq

/-- What `itemPurge` runs on each tick of `tickPurge`. -/
def itemPurgeOps : List GCOp := [GCOp.cleanItemToDeleteOp]

/-- What `itemsGC` runs on each tick of `tickGC`: `cleanBuffer`, then
`cleanWaitingItem`, sequentially on the same ticker. -/
def itemsGCOps : List GCOp := [GCOp.cleanBufferOp, GCOp.cleanWaitingItemOp]

/-- Both tickers fire every `1 * time.Minute`. -/
def gcTickerMinutes : Nat := 1

/-- The background loops the service runs: `(interval in minutes, ops per
tick)` for `itemPurge` and `itemsGC`. -/
def gcLoops : List (Nat × List GCOp) :=
  [(gcTickerMinutes, itemPurgeOps), (gcTickerMinutes, itemsGCOps)]

/-- An event observed by a loop's `select`: a ticker fire (with, per
operation, whether it returns an error this tick) or context cancellation. -/
inductive LoopEvent where
  | tick (failing : GCOp → Bool)
  | cancel

def notCancel : LoopEvent → Bool
  | LoopEvent.tick _ => true
  | LoopEvent.cancel => false

/-- The operations a single event makes a loop execute, with their error flag. -/
def tickOps (ops : List GCOp) : LoopEvent → List (GCOp × Bool)
  | LoopEvent.tick failing => ops.map (fun o => (o, failing o))
  | LoopEvent.cancel => []

/-- A GC loop over its event trace, as in the Go `for { select ... } }`: on
`ctx.Done` it logs and returns (`true` = stopped); on a tick it runs its
operations — an operation's error is only logged, never breaks the loop — and
keeps looping. Returns the executed operations with their error flags. -/
def runLoop (ops : List GCOp) : List LoopEvent → List (GCOp × Bool) × Bool
  | [] => ([], false)
  | LoopEvent.cancel :: _ => ([], true)
  | LoopEvent.tick failing :: rest =>
    let r := runLoop ops rest
    (ops.map (fun o => (o, failing o)) ++ r.1, r.2)

theorem runLoop_spec (ops : List GCOp) : ∀ events : List LoopEvent,
    ((runLoop ops events).2 = true ↔ LoopEvent.cancel ∈ events) ∧
    (runLoop ops events).1 = (events.takeWhile notCancel).flatMap (tickOps ops) := by
  intro events
  induction events with
  | nil => simp [runLoop]
  | cons e rest ih =>
    cases e with
    | cancel => simp [runLoop, List.takeWhile_cons, notCancel]
    | tick failing =>
      unfold runLoop
      constructor
      · rw [ih.1]
        simp [List.mem_cons]
      · show List.map (fun o => (o, failing o)) ops ++ (runLoop ops rest).1 = _
        rw [ih.2]
        simp [List.takeWhile_cons, notCancel, tickOps]

/-- C7: each GC loop stops exactly when its context is cancelled, and executes
every operation of every tick preceding the first cancellation — erroring
ticks included, since an operation's error is only logged; no operation error
ever terminates a loop. -/
theorem gcLoops_stop_only_on_cancel (events : List LoopEvent) :
    (((runLoop itemPurgeOps events).2 = true ↔ LoopEvent.cancel ∈ events) ∧
      (runLoop itemPurgeOps events).1 =
        (events.takeWhile notCancel).flatMap (tickOps itemPurgeOps)) ∧
    (((runLoop itemsGCOps events).2 = true ↔ LoopEvent.cancel ∈ events) ∧
      (runLoop itemsGCOps events).1 =
        (events.takeWhile notCancel).flatMap (tickOps itemsGCOps)) :=
  ⟨runLoop_spec itemPurgeOps events, runLoop_spec itemsGCOps events⟩

/-- C4, counterexample: service boot starts two GC loops, not three — buffer
eviction and stale-incoming completion share the `itemsGC` ticker, so it is
false that each of the three processes has its own timer. -/
theorem gc_three_timers_counterexample :
    gcLoops.length = 2 ∧
    (gcTickerMinutes, [GCOp.cleanBufferOp, GCOp.cleanWaitingItemOp]) ∈ gcLoops ∧
    ¬ (gcLoops.length = 3 ∧ ∀ l ∈ gcLoops, l.2.length = 1) := by
  decide

/-- C4, amended: the garbage collector consists of three periodic operations
scheduled by two one-minute loops: `itemPurge` runs the hard-delete sweep on
its own ticker, and `itemsGC` runs buffer eviction then stale-incoming
completion, in that order, on a second shared ticker; every loop stops on
context cancellation. -/
theorem gc_two_loops_three_ops (f : GCOp → Bool) (rest : List LoopEvent) :
    gcLoops.length = 2 ∧
    (∀ l ∈ gcLoops, l.1 = gcTickerMinutes) ∧
    (∀ op : GCOp, ∃ l ∈ gcLoops, op ∈ l.2) ∧
    (runLoop itemsGCOps (LoopEvent.tick f :: rest)).1 =
      (GCOp.cleanBufferOp, f GCOp.cleanBufferOp) ::
        (GCOp.cleanWaitingItemOp, f GCOp.cleanWaitingItemOp) ::
        (runLoop itemsGCOps rest).1 ∧
    runLoop itemsGCOps (LoopEvent.cancel :: rest) = ([], true) ∧
    runLoop itemPurgeOps (LoopEvent.cancel :: rest) = ([], true) := by
  refine ⟨rfl, by decide, ?_, rfl, rfl, rfl⟩
  intro op
  cases op
  · exact ⟨(gcTickerMinutes, itemPurgeOps), by decide, by decide⟩
  · exact ⟨(gcTickerMinutes, itemsGCOps), by decide, by decide⟩
  · exact ⟨(gcTickerMinutes, itemsGCOps), by decide, by decide⟩

/-- C4 witness: the loop facts instantiated — `itemPurge` ticks every minute
and some loop runs buffer eviction. -/
theorem gc_two_loops_three_ops_witness :
    (gcTickerMinutes, itemPurgeOps).1 = gcTickerMinutes ∧
    (∃ l ∈ gcLoops, GCOp.cleanBufferOp ∈ l.2) :=
  ⟨(gc_two_loops_three_ops (fun _ => false) []).2.1 (gcTickerMinutes, itemPurgeOps) (by decide),
   (gc_two_loops_three_ops (fun _ => false) []).2.2.1 GCOp.cleanBufferOp⟩

end CdnGC

namespace CdnGC

/-! ## Mark-to-delete (consumed by `markItemToDeleteHandler`) -/

/-- The `apiRef` coordinates the deletion selectors look at. -/
structure CDNLogAPIRef where
  runID : Nat
  workflowID : Nat
  deriving DecidableEq

structure CDNItem where
  id : Nat
  apiRef : CDNLogAPIRef
  toDelete : Bool
  deriving DecidableEq

/-- `sdk.CDNMarkDelete`: a selector with Go zero-values, so a field equal to 0
means "not given". -/
structure CDNMarkDelete where
  runID : Nat
  workflowID : Nat
  deriving DecidableEq

/-- Selector precedence per §6: a given `runID` scopes to exactly that run;
otherwise a given `workflowID` scopes to all runs under that workflow. -/
def matchesSelector (sel : CDNMarkDelete) (it : CDNItem) : Bool :=
  if sel.runID != 0 then it.apiRef.runID == sel.runID
  else if sel.workflowID != 0 then it.apiRef.workflowID == sel.workflowID
  else false

/-- Modelled from the spec: `markItemToDeleteHandler` and the `markToDelete`
registry operation are not under src/ (only their test is); §4.1/§6: set
`toDelete = true` on all items matching the selector, touching nothing else. -/
def markToDelete (sel : CDNMarkDelete) (items : List CDNItem) : List CDNItem :=
  items.map (fun it =>
    if matchesSelector sel it then { it with toDelete := true } else it)

/-- C8: marking with selector `{runID := R}` rewrites every item to itself
with `toDelete` or-ed with `apiRef.runID == R`, and `{workflowID := W}`
likewise with `apiRef.workflowID == W` — so exactly the matching items are
flagged, non-matching items are returned entirely unchanged, and a flag that
was already set stays set. -/
theorem markToDelete_exactly_matching (items : List CDNItem) (R W : Nat)
    (hR : R ≠ 0) (hW : W ≠ 0) :
    markToDelete ⟨R, 0⟩ items =
      items.map (fun it =>
        { it with toDelete := it.toDelete || (it.apiRef.runID == R) }) ∧
    markToDelete ⟨0, W⟩ items =
      items.map (fun it =>
        { it with toDelete := it.toDelete || (it.apiRef.workflowID == W) }) := by
  constructor
  · unfold markToDelete
    apply List.map_congr_left
    intro it _
    by_cases h : it.apiRef.runID = R
    · simp [matchesSelector, hR, h]
    · have hb : (it.apiRef.runID == R) = false := by simp [h]
      simp [matchesSelector, hR, h, hb]
  · unfold markToDelete
    apply List.map_congr_left
    intro it _
    by_cases h : it.apiRef.workflowID = W
    · simp [matchesSelector, hW, h]
    · have hb : (it.apiRef.workflowID == W) = false := by simp [h]
      simp [matchesSelector, hW, h, hb]

/-! The scenario of `TestMarkItemToDeleteHandler`: items with
`(runID, workflowID)` of `(1,1)`, `(2,2)`, `(3,2)`. -/

def testItem1 : CDNItem := ⟨1, ⟨1, 1⟩, false⟩
def testItem2 : CDNItem := ⟨2, ⟨2, 2⟩, false⟩
def testItem3 : CDNItem := ⟨3, ⟨3, 2⟩, false⟩

/-- C8 witness: marking `{runID := 2}` flags only the second item; then
marking `{workflowID := 1}` additionally flags only the first, leaving the
third unflagged and the second still flagged. -/
theorem markToDelete_exactly_matching_witness :
    markToDelete ⟨2, 0⟩ [testItem1, testItem2, testItem3] =
      [testItem1, ⟨2, ⟨2, 2⟩, true⟩, testItem3] ∧
    markToDelete ⟨0, 1⟩ (markToDelete ⟨2, 0⟩ [testItem1, testItem2, testItem3]) =
      [⟨1, ⟨1, 1⟩, true⟩, ⟨2, ⟨2, 2⟩, true⟩, testItem3] := by
  have h1 := (markToDelete_exactly_matching [testItem1, testItem2, testItem3] 2 1
    (by decide) (by decide)).1
  have h2 := (markToDelete_exactly_matching
    (markToDelete ⟨2, 0⟩ [testItem1, testItem2, testItem3]) 2 1 (by decide) (by decide)).2
  constructor
  · rw [h1]; decide
  · rw [h2]; decide

end CdnGC

namespace CdnGC

/-! ## Live log streaming (`getItemLogsStreamHandler`) -/

/-- A log line: its zero-based `number` (the sole ordering key) and its
formatted text. -/
structure Line where
  number : Nat
  value : String
  deriving DecidableEq

/-- The lines numbered `s, s+1, …, s+len-1`, with values drawn from `val` —
ingestion numbers lines contiguously in arrival order. -/
def linesFrom (val : Nat → String) (s : Nat) : Nat → List Line
  | 0 => []
  | len + 1 => ⟨s, val s⟩ :: linesFrom val (s + 1) len

/-- Modelled from the spec: the streaming subscription is not under src/ (only
its test is); §4.4 `subscribe(itemID, offset)` first replays all currently
stored lines with `number ≥ offset` in order, then continues emitting newly
ingested lines as they arrive. `stored` are the lines present when the
subscription opens; `live` those ingested afterwards. -/
def subscribeDelivered (stored live : List Line) (offset : Nat) : List Line :=
  stored.filter (fun l => decide (offset ≤ l.number)) ++ live

theorem linesFrom_append (val : Nat → String) (a : Nat) :
    ∀ (s b : Nat), linesFrom val s (a + b) = linesFrom val s a ++ linesFrom val (s + a) b := by
  induction a with
  | zero => intro s b; simp [linesFrom]
  | succ m ih =>
    intro s b
    have : m + 1 + b = (m + b) + 1 := by omega
    rw [this]
    show (⟨s, val s⟩ : Line) :: linesFrom val (s + 1) (m + b) = _
    rw [ih (s + 1) b]
    have harg : s + 1 + m = s + (m + 1) := by omega
    rw [harg]
    simp [linesFrom]

theorem linesFrom_number_bounds (val : Nat → String) :
    ∀ (len s : Nat) (l : Line), l ∈ linesFrom val s len → s ≤ l.number ∧ l.number < s + len := by
  intro len
  induction len with
  | zero => intro s l h; cases h
  | succ m ih =>
    intro s l h
    rcases List.mem_cons.mp h with rfl | h'
    · constructor
      · exact le_rfl
      · show s < s + (m + 1)
        omega
    · obtain ⟨h1, h2⟩ := ih (s + 1) l h'
      omega

theorem filter_linesFrom_all (val : Nat → String) (k : Nat) (s len : Nat) (hks : k ≤ s) :
    (linesFrom val s len).filter (fun l => decide (k ≤ l.number)) = linesFrom val s len := by
  apply List.filter_eq_self.mpr
  intro l hl
  have := (linesFrom_number_bounds val len s l hl).1
  simp only [decide_eq_true_iff]
  omega

theorem filter_linesFrom_none (val : Nat → String) (k : Nat) (s len : Nat) (hsk : s + len ≤ k) :
    (linesFrom val s len).filter (fun l => decide (k ≤ l.number)) = [] := by
  apply List.filter_eq_nil_iff.mpr
  intro l hl
  have := (linesFrom_number_bounds val len s l hl).2
  simp only [decide_eq_true_iff]
  omega

theorem linesFrom_numbers (val : Nat → String) :
    ∀ (len s : Nat), (linesFrom val s len).map Line.number = List.range' s len := by
  intro len
  induction len with
  | zero => intro s; rfl
  | succ m ih =>
    intro s
    show s :: (linesFrom val (s + 1) m).map Line.number = _
    rw [ih (s + 1)]
    rfl

/-- C9: with lines `0 .. N-1` ingested, `m` of them stored when the
subscription opens (`offset ≤ m`, as when resuming from a received line or
subscribing from the start), the subscriber receives exactly the lines
`offset .. N-1`: the delivered sequence is `linesFrom` at `offset`, so its
numbers are `offset, offset+1, …, N-1` in ascending order — no duplicates, no
number below `offset`, nothing missing. -/
theorem subscribe_delivers_exact_suffix (val : Nat → String) (N m k : Nat)
    (hkm : k ≤ m) (hmN : m ≤ N) :
    subscribeDelivered (linesFrom val 0 m) (linesFrom val m (N - m)) k =
      linesFrom val k (N - k) ∧
    (subscribeDelivered (linesFrom val 0 m) (linesFrom val m (N - m)) k).map Line.number =
      List.range' k (N - k) := by
  have hmain : subscribeDelivered (linesFrom val 0 m) (linesFrom val m (N - m)) k =
      linesFrom val k (N - k) := by
    unfold subscribeDelivered
    have hsplit : linesFrom val 0 m = linesFrom val 0 k ++ linesFrom val k (m - k) := by
      have : m = k + (m - k) := by omega
      rw [this, linesFrom_append]
      simp
    rw [hsplit, List.filter_append, filter_linesFrom_none val k 0 k (by omega),
      filter_linesFrom_all val k k (m - k) le_rfl]
    rw [List.nil_append]
    have hjoin : linesFrom val k (m - k) ++ linesFrom val m (N - m) =
        linesFrom val k ((m - k) + (N - m)) := by
      rw [linesFrom_append val (m - k) k (N - m)]
      have harg : k + (m - k) = m := by omega
      rw [harg]
    have hlen : (m - k) + (N - m) = N - k := by omega
    rw [hjoin, hlen]
  exact ⟨hmain, by rw [hmain, linesFrom_numbers]⟩

/-- C9 witness: the test scenario — 20 lines, 10 stored at subscribe time for
the no-offset subscriber, and an `offset = 15` subscriber opened after all 20
exist. -/
theorem subscribe_delivers_exact_suffix_witness :
    subscribeDelivered (linesFrom (fun _ => "msg") 0 10)
        (linesFrom (fun _ => "msg") 10 (20 - 10)) 0 =
      linesFrom (fun _ => "msg") 0 (20 - 0) ∧
    subscribeDelivered (linesFrom (fun _ => "msg") 0 20)
        (linesFrom (fun _ => "msg") 20 (20 - 20)) 15 =
      linesFrom (fun _ => "msg") 15 (20 - 15) :=
  ⟨(subscribe_delivers_exact_suffix (fun _ => "msg") 20 10 0 (by decide) (by decide)).1,
   (subscribe_delivers_exact_suffix (fun _ => "msg") 20 20 15 (by decide) (by decide)).1⟩

end CdnGC
